import Mathlib

/-!
Verification of the `SimpleVectorStore` component (`src/simple_vector_store.py`).

Shallow embedding conventions:
* Python floats are modelled as real numbers (`ℝ`); embedding vectors are `List ℝ`.
* A Python metadata dict (string keys, JSON-serializable values) is modelled as an
  association list `List (String × String)` with unique keys; JSON values are
  modelled by their serialized string form.  `mmLookup`/`mmInsert`/`mmErase`
  mirror `d[k]`, `d[k] = v` (replace in place, else append) and `d.pop(k)`.
* The external embedding provider (`OpenAIEmbeddings.embed_documents` /
  `embed_query`) is a collaborator; its outputs are passed to the operations as
  explicit arguments (`embeds`, `qv`).
* The wall clock (`datetime.now().timestamp()` / `.isoformat()`) is modelled as
  explicit per-iteration oracles `clkTs clkIso : Nat → String`.
* File-system writes are modelled by an explicit outcome argument
  (`Except String Unit`, `Except.error e` = the underlying write raised) plus an
  event log (`Write`) of the contents the operation wrote (or attempted to).
* Mutating methods are functions from the old store (plus oracle inputs) to a
  result record holding the surfaced return value (`ret`), the new in-memory
  state (`store`) and the attempted file writes (`writes`).
-/

namespace SimpleVectorStore

/-- Embedding vector: Python `List[float]`, modelled over `ℝ`. -/
abbrev Vec := List ℝ

/-- Metadata dict: association list with string keys and (serialized) string values. -/
abbrev MetaMap := List (String × String)

/-- Dict lookup `d.get(k)` / `d[k]`: first binding of the key (keys are unique in a dict). -/
def mmLookup : MetaMap → String → Option String
  | [], _ => none
  | (k, v) :: rest, key => if k = key then some v else mmLookup rest key

/-- Dict removal `d.pop(k, ...)`: drop the binding of `k` (all bindings of `k`;
for maps with unique keys this is exactly Python's single-key removal). -/
def mmErase : MetaMap → String → MetaMap
  | [], _ => []
  | (k, v) :: rest, key => if k = key then mmErase rest key else (k, v) :: mmErase rest key

/-- Dict assignment `d[k] = v`: replace the value in place if the key is present
(keeping its position, as Python dicts do), otherwise append the new binding. -/
def mmInsert : MetaMap → String → String → MetaMap
  | [], k, v => [(k, v)]
  | (k', v') :: rest, k, v => if k' = k then (k, v) :: rest else (k', v') :: mmInsert rest k v

/-- Dict update `d.update(other)`: assign each binding of `other` in order. -/
def mmUpdate (m : MetaMap) (other : MetaMap) : MetaMap :=
  other.foldl (fun acc p => mmInsert acc p.1 p.2) m

/-- The keys of a metadata dict. -/
def mmKeys (m : MetaMap) : List String := m.map Prod.fst

/-- Little-endian decimal digits with explicit fuel (`fuel ≥ n` suffices); this is a
structurally recursive rendering of the usual base-10 digit expansion, so that it
reduces definitionally on concrete inputs. -/
def digitsF : Nat → Nat → List Nat
  | 0, _ => []
  | _ + 1, 0 => []
  | fuel + 1, n + 1 => (n + 1) % 10 :: digitsF fuel ((n + 1) / 10)

/-- Little-endian decimal digits of a natural number. -/
def decDigits (n : Nat) : List Nat := digitsF n n

/-- Decimal rendering of a natural number, as produced by Python's `str(n)` /
f-string interpolation of an `int`. -/
def natStr (n : Nat) : String :=
  if n = 0 then "0" else ⟨((decDigits n).reverse.map Nat.digitChar)⟩

/-- Document id minted by `add_texts`: `f"doc_{len(self.vectors)}_{datetime.now().timestamp()}"`,
with `n` the current vector count and `ts` the clock reading rendered as a string. -/
def mkDocId (n : Nat) (ts : String) : String :=
  "doc_" ++ natStr n ++ "_" ++ ts

/-- The in-memory state of a `SimpleVectorStore`: the two parallel arrays
`self.vectors` and `self.metadata`.  (The constructor-time fields `store_path`
and the embedding object do not participate in any claim and are omitted.) -/
structure Store where
  vectors : List Vec
  metadata : List MetaMap

/-- The central parallel-array invariant: both arrays have the same length. -/
def Store.aligned (s : Store) : Prop := s.vectors.length = s.metadata.length

/-- A file write performed by a mutating operation, with the content written. -/
inductive Write where
  | vectors : List Vec → Write
  | metadata : List MetaMap → Write

/-- Model of `_save_vectors`: the underlying `pickle.dump` either succeeds
(`Except.ok ()`) or raises (`Except.error e`); the method catches any exception
and merely prints it, so the surfaced outcome is always success. -/
def save_vectorsM (outcome : Except String Unit) : Except String Unit :=
  match outcome with
  | Except.ok _ => Except.ok ()
  | Except.error _ => Except.ok ()

/-- Model of `_save_metadata`: same `try/except Exception: print` shape as
`_save_vectors`. -/
def save_metadataM (outcome : Except String Unit) : Except String Unit :=
  match outcome with
  | Except.ok _ => Except.ok ()
  | Except.error _ => Except.ok ()

/-- Result of a call to `add_texts`/`add_documents`: the surfaced return value,
the new in-memory store, and the file writes performed. -/
structure AddResult where
  ret : Except String (List String)
  store : Store
  writes : List Write

/-- Result of a call to `delete`. -/
structure DelResult where
  ret : Except String Unit
  store : Store
  writes : List Write

/-- The metadata record built for the `i`-th input text inside the `add_texts`
loop: the base dict `{"id": doc_id, "text": text, "timestamp": now().isoformat()}`,
updated with `metadatas[i]` when `metadatas` is given and `i < len(metadatas)`.
`n` is `len(self.vectors)` at the time of this iteration. -/
def buildRecord (clkTs clkIso : Nat → String) (mds : Option (List MetaMap))
    (n i : Nat) (t : String) : MetaMap :=
  let base : MetaMap := [("id", mkDocId n (clkTs i)), ("text", t), ("timestamp", clkIso i)]
  match mds with
  | none => base
  | some ms => if i < ms.length then mmUpdate base (ms.getD i []) else base

/-- The `for i, (text, embedding) in enumerate(zip(texts, embeddings))` loop of
`add_texts`: each iteration mints `doc_id` from the current vector count, appends
the embedding to `vectors` and the record to `metadata`, and collects the id. -/
def addLoop (clkTs clkIso : Nat → String) (mds : Option (List MetaMap)) :
    List (String × Vec) → Nat → Store → Store × List String
  | [], _, s => (s, [])
  | (t, e) :: rest, i, s =>
    let docId := mkDocId s.vectors.length (clkTs i)
    let meta := buildRecord clkTs clkIso mds s.vectors.length i t
    let s' : Store := ⟨s.vectors ++ [e], s.metadata ++ [meta]⟩
    let r := addLoop clkTs clkIso mds rest (i + 1) s'
    (r.1, docId :: r.2)

/-- Model of `add_texts`.  `texts` are the caller's inputs, `embeds` is the
embedding provider's output for them (`embed_documents(texts)`), `mds` the
optional caller metadata, `clkTs`/`clkIso` the clock, `fsV`/`fsM` the outcomes
of the two underlying file writes.  Empty input returns `[]` before embedding
or saving anything; otherwise the loop runs and both artifacts are saved
(save failures being swallowed by the helpers). -/
def add_texts (s : Store) (texts : List String) (embeds : List Vec)
    (mds : Option (List MetaMap)) (clkTs clkIso : Nat → String)
    (fsV fsM : Except String Unit) : AddResult :=
  if texts = [] then { ret := Except.ok [], store := s, writes := [] }
  else
    let r := addLoop clkTs clkIso mds (texts.zip embeds) 0 s
    { ret := (save_vectorsM fsV).bind fun _ =>
        (save_metadataM fsM).bind fun _ => Except.ok r.2
    , store := r.1
    , writes := [Write.vectors r.1.vectors, Write.metadata r.1.metadata] }

/-- Model of `add_documents`: unzip the documents into parallel `texts` /
`metadatas` and delegate to `add_texts`. -/
def add_documents (s : Store) (docs : List (String × MetaMap)) (embeds : List Vec)
    (clkTs clkIso : Nat → String) (fsV fsM : Except String Unit) : AddResult :=
  add_texts s (docs.map Prod.fst) embeds (some (docs.map Prod.snd)) clkTs clkIso fsV fsM

/-- Stable descending insertion by a key: `x` is placed before the first element
whose key is `≤ key x`, i.e. after every earlier element with a strictly larger
or equal key. -/
def insKeyDesc {α β : Type} [LinearOrder β] (key : α → β) (x : α) : List α → List α
  | [] => [x]
  | y :: ys => if key x < key y then y :: insKeyDesc key x ys else x :: y :: ys

/-- Stable descending sort by a key: the semantics of Python's stable
`list.sort(key=..., reverse=True)` / `sorted(..., reverse=True)`. -/
def sortKeyDesc {α β : Type} [LinearOrder β] (key : α → β) (l : List α) : List α :=
  l.foldr (insKeyDesc key) []

/-- The index-removal loop of `delete`: for each index (visited in descending
order) delete that position from both arrays, each guarded by a bound check
against the current length. -/
def removeIdxs : List Nat → List Vec → List MetaMap → List Vec × List MetaMap
  | [], v, m => (v, m)
  | idx :: rest, v, m =>
    removeIdxs rest (if idx < v.length then v.eraseIdx idx else v)
      (if idx < m.length then m.eraseIdx idx else m)

/-- Model of `delete`.  `ids = none` models the `None` default; a falsy `ids`
returns immediately.  Otherwise, for each requested id the first matching
metadata index is collected (ids with no match are skipped), the collected
indices are removed in descending order from both arrays, and both artifacts
are saved. -/
def delete (s : Store) (ids : Option (List String)) (fsV fsM : Except String Unit) :
    DelResult :=
  match ids with
  | none => { ret := Except.ok (), store := s, writes := [] }
  | some l =>
    if l = [] then { ret := Except.ok (), store := s, writes := [] }
    else
      let idxs := l.filterMap fun d =>
        s.metadata.findIdx? fun m => decide (mmLookup m "id" = some d)
      let sorted := sortKeyDesc (fun n : Nat => n) idxs
      let vm := removeIdxs sorted s.vectors s.metadata
      { ret := (save_vectorsM fsV).bind fun _ =>
          (save_metadataM fsM).bind fun _ => Except.ok ()
      , store := ⟨vm.1, vm.2⟩
      , writes := [Write.vectors vm.1, Write.metadata vm.2] }

/-- The statistics record returned by `get_collection_stats` (the constant
`store_path` field is omitted; `status` is always `"ready"`). -/
structure Stats where
  document_count : Nat
  vector_count : Nat
  status : String

/-- Model of `get_collection_stats`. -/
def get_collection_stats (s : Store) : Stats :=
  { document_count := s.metadata.length, vector_count := s.vectors.length, status := "ready" }

/-- `np.dot` on two equal-length 1-D arrays: the sum of pointwise products. -/
def dotProduct (a b : Vec) : ℝ := (List.zipWith (fun x y => x * y) a b).sum

/-- Sum of squares of the entries of a vector. -/
def sumSq (a : Vec) : ℝ := dotProduct a a

/-- `np.linalg.norm`: the Euclidean norm, square root of the sum of squares. -/
noncomputable def norm2 (a : Vec) : ℝ := Real.sqrt (sumSq a)

/-- Model of `_cosine_similarity`: `0.0` when either norm is exactly zero,
otherwise the dot product divided by the product of the norms. -/
noncomputable def cosine_similarity (a b : Vec) : ℝ :=
  if norm2 a = 0 ∨ norm2 b = 0 then 0 else dotProduct a b / (norm2 a * norm2 b)

/-- A returned `Document`: `page_content` plus caller-facing metadata. -/
structure Doc where
  page_content : String
  metadata : MetaMap

/-- The result-construction step shared by both search methods: work on a copy of
the stored record (`meta = self.metadata[idx].copy()`), pop `"text"` (with
default `""`) as the content, pop the internal `"id"` and `"timestamp"`, and
return the rest as the result metadata. -/
def mkDoc (m : MetaMap) : Doc :=
  { page_content := (mmLookup m "text").getD ""
  , metadata := mmErase (mmErase (mmErase m "text") "id") "timestamp" }

/-- The similarity list built by both search methods: one `(index, score)` pair
per stored vector, in storage order. -/
noncomputable def simPairs (s : Store) (qv : Vec) : List (Nat × ℝ) :=
  s.vectors.enum.map fun p => (p.1, cosine_similarity qv p.2)

/-- The similarity list after `similarities.sort(key=lambda x: x[1], reverse=True)`:
stably sorted descending by score. -/
noncomputable def searchRanking (s : Store) (qv : Vec) : List (Nat × ℝ) :=
  sortKeyDesc Prod.snd (simPairs s qv)

/-- Model of `similarity_search`: empty store short-circuits to `[]`; otherwise
take the top `k` of the ranking and build a `Document` for each index that is in
bounds for the metadata array.  `qv` is `embed_query(query)`; `k` is a natural
number (the claims only concern `k ≥ 1`). -/
noncomputable def similarity_search (s : Store) (qv : Vec) (k : Nat) : List Doc :=
  if s.vectors.isEmpty then []
  else ((searchRanking s qv).take k).filterMap fun p =>
    (s.metadata.get? p.1).map fun m => mkDoc m

/-- Model of `similarity_search_with_score`: identical ranking, with the raw
cosine-similarity score paired with each result. -/
noncomputable def similarity_search_with_score (s : Store) (qv : Vec) (k : Nat) :
    List (Doc × ℝ) :=
  if s.vectors.isEmpty then []
  else ((searchRanking s qv).take k).filterMap fun p =>
    (s.metadata.get? p.1).map fun m => (mkDoc m, p.2)

/-- The `similarity_search` method viewed as a full method call: its results,
the store afterwards, and the file writes it performs.  The method body never
assigns to `self.vectors`/`self.metadata` and never calls a save helper, and
each result works on a `.copy()` of the stored record, so the state is returned
unchanged and the write log is empty. -/
noncomputable def similarity_searchM (s : Store) (qv : Vec) (k : Nat) :
    List Doc × Store × List Write :=
  (similarity_search s qv k, s, [])

/-- The `similarity_search_with_score` method viewed as a full method call. -/
noncomputable def similarity_search_with_scoreM (s : Store) (qv : Vec) (k : Nat) :
    List (Doc × ℝ) × Store × List Write :=
  (similarity_search_with_score s qv k, s, [])

/-- The stored metadata record at index `i` (with a dummy default, used only at
in-bounds indices). -/
def metaAt (s : Store) (i : Nat) : MetaMap := s.metadata.getD i []

/-- One mutating operation of the store, with all of its oracle inputs. -/
inductive Op where
  | addT : List String → List Vec → Option (List MetaMap) → (Nat → String) →
      (Nat → String) → Except String Unit → Except String Unit → Op
  | addD : List (String × MetaMap) → List Vec → (Nat → String) → (Nat → String) →
      Except String Unit → Except String Unit → Op
  | del : Option (List String) → Except String Unit → Except String Unit → Op

/-- Apply one mutating operation to the in-memory state. -/
def applyOp (s : Store) : Op → Store
  | Op.addT texts embeds mds c1 c2 f1 f2 => (add_texts s texts embeds mds c1 c2 f1 f2).store
  | Op.addD docs embeds c1 c2 f1 f2 => (add_documents s docs embeds c1 c2 f1 f2).store
  | Op.del ids f1 f2 => (delete s ids f1 f2).store

/-- Apply a sequence of mutating operations from left to right. -/
def applyOps (s : Store) (ops : List Op) : Store := ops.foldl applyOp s

/-- A small concrete aligned store used by the witness theorems. -/
def sampleStore : Store :=
  ⟨[[]], [[("id", "doc_0_1.0"), ("text", "hello"), ("timestamp", "T")]]⟩

/-- A two-record store used by the counterexample/bug theorems. -/
def dupStore : Store :=
  ⟨[[], []], [[("id", "A"), ("text", "a")], [("id", "B"), ("text", "b")]]⟩

/-- The store obtained by adding two texts to an empty store with a clock stuck
at `100.0` (ids `doc_0_100.0`, `doc_1_100.0`). -/
def cexStoreAB : Store :=
  (add_texts ⟨[], []⟩ ["a", "b"] [[], []] none (fun _ => "100.0") (fun _ => "T")
    (Except.ok ()) (Except.ok ())).store

/-- `cexStoreAB` after deleting `doc_0_100.0`: one record remains, with id
`doc_1_100.0`, and the vector count is back to 1. -/
def cexStoreB : Store :=
  (delete cexStoreAB (some ["doc_0_100.0"]) (Except.ok ()) (Except.ok ())).store

/- ------------------------------------------------------------------ -/
/- Lemmas about the metadata-dict operations.                          -/
/- ------------------------------------------------------------------ -/

theorem mmLookup_mmInsert (m : MetaMap) (k v key : String) :
    mmLookup (mmInsert m k v) key = if k = key then some v else mmLookup m key := by
  induction m with
  | nil => simp [mmInsert, mmLookup]
  | cons p rest ih =>
    obtain ⟨k', v'⟩ := p
    by_cases hk : k' = k
    · subst hk
      by_cases hkey : k' = key <;> simp [mmInsert, mmLookup, hkey]
    · by_cases hkey : k' = key
      · subst hkey
        have hk2 : ¬ k = k' := fun h => hk h.symm
        simp [mmInsert, mmLookup, hk, hk2]
      · simp [mmInsert, mmLookup, hk, hkey, ih]

theorem mmLookup_eq_none_iff (m : MetaMap) (key : String) :
    mmLookup m key = none ↔ key ∉ mmKeys m := by
  induction m with
  | nil => simp [mmLookup, mmKeys]
  | cons p rest ih =>
    obtain ⟨k, v⟩ := p
    by_cases hk : k = key
    · subst hk
      simp [mmLookup, mmKeys]
    · have hk2 : ¬ key = k := fun h => hk h.symm
      simp [mmLookup, mmKeys, hk, hk2, ih]

theorem mmLookup_mmUpdate (m cm : MetaMap) (key : String) (h : (mmKeys cm).Nodup) :
    mmLookup (mmUpdate m cm) key =
      match mmLookup cm key with
      | some v => some v
      | none => mmLookup m key := by
  induction cm generalizing m with
  | nil => simp [mmUpdate, mmLookup]
  | cons p rest ih =>
    obtain ⟨k, v⟩ := p
    have hsimp := h
    simp only [mmKeys, List.map_cons, List.nodup_cons] at hsimp
    have hrest : (mmKeys rest).Nodup := hsimp.2
    have hknot : k ∉ mmKeys rest := hsimp.1
    have hfold : mmUpdate m ((k, v) :: rest) = mmUpdate (mmInsert m k v) rest := rfl
    rw [hfold, ih _ hrest]
    by_cases hk : k = key
    · subst hk
      have : mmLookup rest k = none := (mmLookup_eq_none_iff rest k).mpr hknot
      simp [mmLookup, this, mmLookup_mmInsert]
    · have hk2 : ¬ key = k := fun hx => hk hx.symm
      cases hrk : mmLookup rest key with
      | some w => simp [mmLookup, hk, hrk]
      | none => simp [mmLookup, hk, hrk, mmLookup_mmInsert]

theorem mmLookup_mmErase (m : MetaMap) (k key : String) :
    mmLookup (mmErase m k) key = if key = k then none else mmLookup m key := by
  induction m with
  | nil => simp [mmErase, mmLookup]
  | cons p rest ih =>
    obtain ⟨k', v'⟩ := p
    by_cases hk : k' = k
    · subst hk
      by_cases hkey : key = k'
      · subst hkey
        simp [mmErase, ih]
      · have hne : ¬ k' = key := fun h => hkey h.symm
        simp [mmErase, mmLookup, ih, hkey, hne]
    · by_cases hkey : k' = key
      · subst hkey
        simp [mmErase, mmLookup, hk]
      · simp [mmErase, mmLookup, hk, hkey, ih]

/- ------------------------------------------------------------------ -/
/- Lemmas about the decimal rendering and the minted document ids.     -/
/- ------------------------------------------------------------------ -/

theorem digitsF_eq_digits : ∀ fuel n, n ≤ fuel → digitsF fuel n = Nat.digits 10 n := by
  intro fuel
  induction fuel with
  | zero =>
    intro n hn
    interval_cases n
    simp [digitsF]
  | succ fuel ih =>
    intro n hn
    cases n with
    | zero => simp [digitsF]
    | succ n =>
      have hdiv : (n + 1) / 10 ≤ fuel := by
        have h1 : (n + 1) / 10 < n + 1 := Nat.div_lt_self (Nat.succ_pos n) (by norm_num)
        omega
      have := ih ((n + 1) / 10) hdiv
      rw [digitsF, this, Nat.digits_def' (by norm_num : (1:ℕ) < 10) (Nat.succ_pos n)]

theorem decDigits_eq (n : Nat) : decDigits n = Nat.digits 10 n :=
  digitsF_eq_digits n n le_rfl

theorem digitChar_inj_lt : ∀ a < 10, ∀ b < 10, Nat.digitChar a = Nat.digitChar b → a = b := by
  decide

theorem digitChar_ne_underscore : ∀ a < 10, Nat.digitChar a ≠ '_' := by
  decide

theorem map_digitChar_inj :
    ∀ (l1 l2 : List Nat), (∀ x ∈ l1, x < 10) → (∀ x ∈ l2, x < 10) →
      l1.map Nat.digitChar = l2.map Nat.digitChar → l1 = l2 := by
  intro l1
  induction l1 with
  | nil =>
    intro l2 _ _ h
    cases l2 with
    | nil => rfl
    | cons b l2 => simp at h
  | cons a l1 ih =>
    intro l2 h1 h2 h
    cases l2 with
    | nil => simp at h
    | cons b l2 =>
      simp only [List.map_cons, List.cons.injEq] at h
      have ha : a < 10 := h1 a (List.mem_cons_self a l1)
      have hb : b < 10 := h2 b (List.mem_cons_self b l2)
      have hab : a = b := digitChar_inj_lt a ha b hb h.1
      have htail : l1 = l2 :=
        ih l2 (fun x hx => h1 x (List.mem_cons_of_mem _ hx))
          (fun x hx => h2 x (List.mem_cons_of_mem _ hx)) h.2
      rw [hab, htail]

theorem natStr_digits_lt (n : Nat) : ∀ x ∈ (decDigits n).reverse, x < 10 := by
  intro x hx
  rw [List.mem_reverse, decDigits_eq] at hx
  exact Nat.digits_lt_base (by norm_num) hx

theorem natStr_data_inj {m n : Nat} (h : (natStr m).data = (natStr n).data) : m = n := by
  by_cases hm : m = 0 <;> by_cases hn : n = 0
  · rw [hm, hn]
  · exfalso
    rw [hm] at h
    simp only [natStr, if_pos rfl, if_neg hn] at h
    have h0 : ['0'] = ((decDigits n).reverse.map Nat.digitChar) := h
    have hrev : [0] = (decDigits n).reverse := by
      apply map_digitChar_inj
      · intro x hx
        simp at hx
        omega
      · exact natStr_digits_lt n
      · exact h0
    have hd : Nat.digits 10 n = [0] := by
      rw [← decDigits_eq]
      have := congrArg List.reverse hrev
      simpa using this.symm
    have : n = Nat.ofDigits 10 (Nat.digits 10 n) := (Nat.ofDigits_digits 10 n).symm
    rw [hd] at this
    simp [Nat.ofDigits] at this
    exact hn this
  · exfalso
    rw [hn] at h
    simp only [natStr, if_pos rfl, if_neg hm] at h
    have h0 : ((decDigits m).reverse.map Nat.digitChar) = ['0'] := h
    have hrev : (decDigits m).reverse = [0] := by
      apply map_digitChar_inj
      · exact natStr_digits_lt m
      · intro x hx
        simp at hx
        omega
      · exact h0
    have hd : Nat.digits 10 m = [0] := by
      rw [← decDigits_eq]
      have := congrArg List.reverse hrev
      simpa using this
    have : m = Nat.ofDigits 10 (Nat.digits 10 m) := (Nat.ofDigits_digits 10 m).symm
    rw [hd] at this
    simp [Nat.ofDigits] at this
    exact hm this
  · simp only [natStr, if_neg hm, if_neg hn] at h
    have hrev : (decDigits m).reverse = (decDigits n).reverse :=
      map_digitChar_inj _ _ (natStr_digits_lt m) (natStr_digits_lt n) h
    have hdig : decDigits m = decDigits n := by
      have := congrArg List.reverse hrev
      simpa using this
    rw [decDigits_eq, decDigits_eq] at hdig
    exact Nat.digits_inj_iff.mp hdig

theorem natStr_no_underscore (n : Nat) : ∀ c ∈ (natStr n).data, c ≠ '_' := by
  intro c hc
  by_cases hn : n = 0
  · rw [hn] at hc
    simp only [natStr, if_pos rfl] at hc
    have : c ∈ ['0'] := hc
    simp at this
    rw [this]
    decide
  · simp only [natStr, if_neg hn] at hc
    have : c ∈ (decDigits n).reverse.map Nat.digitChar := hc
    rw [List.mem_map] at this
    obtain ⟨d, hd, hdc⟩ := this
    rw [← hdc]
    exact digitChar_ne_underscore d (natStr_digits_lt n d hd)

theorem mkDocId_data (n : Nat) (ts : String) :
    (mkDocId n ts).data = "doc_".data ++ ((natStr n).data ++ ('_' :: ts.data)) := by
  show (("doc_" ++ natStr n ++ "_") ++ ts).data = _
  rw [String.data_append, String.data_append, String.data_append]
  simp

theorem append_sep_inj :
    ∀ (a1 : List Char) (a2 : List Char) {b1 b2 : List Char},
      (∀ c ∈ a1, c ≠ '_') → (∀ c ∈ a2, c ≠ '_') →
      a1 ++ ('_' :: b1) = a2 ++ ('_' :: b2) → a1 = a2 ∧ b1 = b2 := by
  intro a1
  induction a1 with
  | nil =>
    intro a2 b1 b2 _ h2 h
    cases a2 with
    | nil =>
      simp at h
      exact ⟨rfl, h⟩
    | cons c a2 =>
      simp at h
      exact absurd h.1.symm (h2 c (List.mem_cons_self c a2))
  | cons c a1 ih =>
    intro a2 b1 b2 h1 h2 h
    cases a2 with
    | nil =>
      simp at h
      exact absurd h.1 (h1 c (List.mem_cons_self c a1))
    | cons c2 a2 =>
      simp only [List.cons_append, List.cons.injEq] at h
      have := ih a2 (fun x hx => h1 x (List.mem_cons_of_mem _ hx))
        (fun x hx => h2 x (List.mem_cons_of_mem _ hx)) h.2
      exact ⟨by rw [h.1, this.1], this.2⟩

theorem mkDocId_inj {n1 n2 : Nat} {t1 t2 : String}
    (h : mkDocId n1 t1 = mkDocId n2 t2) : n1 = n2 ∧ t1 = t2 := by
  have hdata := congrArg String.data h
  rw [mkDocId_data, mkDocId_data] at hdata
  have hcut : (natStr n1).data ++ ('_' :: t1.data) = (natStr n2).data ++ ('_' :: t2.data) :=
    List.append_cancel_left hdata
  have := append_sep_inj _ _ (natStr_no_underscore n1) (natStr_no_underscore n2) hcut
  exact ⟨natStr_data_inj this.1, String.ext this.2⟩

theorem ts_suffix_mkDocId (n : Nat) (ts : String) : ts.data <:+ (mkDocId n ts).data := by
  refine ⟨"doc_".data ++ ((natStr n).data ++ ['_']), ?_⟩
  rw [mkDocId_data]
  simp

/- ------------------------------------------------------------------ -/
/- Lemmas about the stable descending sort.                            -/
/- ------------------------------------------------------------------ -/

theorem insKeyDesc_perm {α β : Type} [LinearOrder β] (key : α → β) (x : α) :
    ∀ (l : List α), List.Perm (insKeyDesc key x l) (x :: l) := by
  intro l
  induction l with
  | nil => exact List.Perm.refl _
  | cons y ys ih =>
    by_cases h : key x < key y
    · simp only [insKeyDesc, if_pos h]
      exact (ih.cons y).trans (List.Perm.swap x y ys)
    · simp only [insKeyDesc, if_neg h]
      exact List.Perm.refl _

theorem sortKeyDesc_perm {α β : Type} [LinearOrder β] (key : α → β) :
    ∀ (l : List α), List.Perm (sortKeyDesc key l) l := by
  intro l
  induction l with
  | nil => exact List.Perm.refl _
  | cons a l ih =>
    have hfold : sortKeyDesc key (a :: l) = insKeyDesc key a (sortKeyDesc key l) := rfl
    rw [hfold]
    exact (insKeyDesc_perm key a (sortKeyDesc key l)).trans (ih.cons a)

theorem mem_insKeyDesc {α β : Type} [LinearOrder β] {key : α → β} {x z : α} {l : List α} :
    z ∈ insKeyDesc key x l ↔ z = x ∨ z ∈ l := by
  rw [(insKeyDesc_perm key x l).mem_iff]
  simp

theorem insKeyDesc_sorted {α β : Type} [LinearOrder β] (key : α → β) (x : α) :
    ∀ {l : List α}, l.Pairwise (fun a b => key b ≤ key a) →
      (insKeyDesc key x l).Pairwise (fun a b => key b ≤ key a) := by
  intro l
  induction l with
  | nil =>
    intro _
    simp [insKeyDesc]
  | cons y ys ih =>
    intro h
    have hy : ∀ z ∈ ys, key z ≤ key y := (List.pairwise_cons.mp h).1
    have hys : ys.Pairwise (fun a b => key b ≤ key a) := (List.pairwise_cons.mp h).2
    by_cases hlt : key x < key y
    · simp only [insKeyDesc, if_pos hlt]
      refine List.pairwise_cons.mpr ⟨?_, ih hys⟩
      intro z hz
      rcases mem_insKeyDesc.mp hz with hzx | hzys
      · rw [hzx]; exact le_of_lt hlt
      · exact hy z hzys
    · simp only [insKeyDesc, if_neg hlt]
      refine List.pairwise_cons.mpr ⟨?_, h⟩
      intro z hz
      rcases List.mem_cons.mp hz with hzy | hzys
      · rw [hzy]; exact le_of_not_lt hlt
      · exact le_trans (hy z hzys) (le_of_not_lt hlt)

theorem sortKeyDesc_sorted {α β : Type} [LinearOrder β] (key : α → β) :
    ∀ (l : List α), (sortKeyDesc key l).Pairwise (fun a b => key b ≤ key a) := by
  intro l
  induction l with
  | nil => simp [sortKeyDesc]
  | cons a l ih =>
    have hfold : sortKeyDesc key (a :: l) = insKeyDesc key a (sortKeyDesc key l) := rfl
    rw [hfold]
    exact insKeyDesc_sorted key a ih

theorem insKeyDesc_pairwise_disj {α β : Type} [LinearOrder β] (key : α → β)
    {Q : α → α → Prop} (x : α) :
    ∀ {l : List α}, (∀ y ∈ l, Q x y) →
      l.Pairwise (fun a b => key b < key a ∨ Q a b) →
      (insKeyDesc key x l).Pairwise (fun a b => key b < key a ∨ Q a b) := by
  intro l
  induction l with
  | nil =>
    intro _ _
    simp [insKeyDesc]
  | cons y ys ih =>
    intro hQ h
    have hy : ∀ z ∈ ys, key z < key y ∨ Q y z := (List.pairwise_cons.mp h).1
    have hys : ys.Pairwise (fun a b => key b < key a ∨ Q a b) := (List.pairwise_cons.mp h).2
    by_cases hlt : key x < key y
    · simp only [insKeyDesc, if_pos hlt]
      refine List.pairwise_cons.mpr ⟨?_, ih (fun z hz => hQ z (List.mem_cons_of_mem _ hz)) hys⟩
      intro z hz
      rcases mem_insKeyDesc.mp hz with hzx | hzys
      · rw [hzx]; exact Or.inl hlt
      · exact hy z hzys
    · simp only [insKeyDesc, if_neg hlt]
      refine List.pairwise_cons.mpr ⟨?_, h⟩
      intro z hz
      exact Or.inr (hQ z hz)

theorem sortKeyDesc_stable {α β : Type} [LinearOrder β] (key : α → β) {Q : α → α → Prop} :
    ∀ {l : List α}, l.Pairwise Q →
      (sortKeyDesc key l).Pairwise (fun a b => key b < key a ∨ Q a b) := by
  intro l
  induction l with
  | nil =>
    intro _
    simp [sortKeyDesc]
  | cons a l ih =>
    intro h
    have ha : ∀ y ∈ l, Q a y := (List.pairwise_cons.mp h).1
    have hl : l.Pairwise Q := (List.pairwise_cons.mp h).2
    have hfold : sortKeyDesc key (a :: l) = insKeyDesc key a (sortKeyDesc key l) := rfl
    rw [hfold]
    refine insKeyDesc_pairwise_disj key a ?_ (ih hl)
    intro y hy
    exact ha y ((sortKeyDesc_perm key l).mem_iff.mp hy)

/- ------------------------------------------------------------------ -/
/- Lemmas about enumeration, take/drop and filterMap.                  -/
/- ------------------------------------------------------------------ -/

theorem pairwise_enumFrom {α : Type} :
    ∀ (l : List α) (n : Nat), (List.enumFrom n l).Pairwise (fun a b => a.1 < b.1) := by
  intro l
  induction l with
  | nil =>
    intro n
    simp
  | cons a l ih =>
    intro n
    simp only [List.enumFrom_cons]
    refine List.pairwise_cons.mpr ⟨?_, ih (n + 1)⟩
    intro q hq
    obtain ⟨q1, q2⟩ := q
    have := List.mem_enumFrom hq
    omega

theorem pairwise_enum {α : Type} (l : List α) :
    l.enum.Pairwise (fun a b => a.1 < b.1) :=
  pairwise_enumFrom l 0

theorem mem_enum_lt {α : Type} {p : Nat × α} {l : List α} (h : p ∈ l.enum) :
    p.1 < l.length := by
  obtain ⟨p1, p2⟩ := p
  have := List.mem_enumFrom h
  omega

theorem pairwise_take_drop {α : Type} {R : α → α → Prop} {l : List α} (h : l.Pairwise R)
    (k : Nat) : ∀ p ∈ l.take k, ∀ q ∈ l.drop k, R p q := by
  have h2 : (l.take k ++ l.drop k).Pairwise R := by
    rw [List.take_append_drop]
    exact h
  exact (List.pairwise_append.mp h2).2.2

theorem filterMap_eq_map_of {α β : Type} {f : α → Option β} {g : α → β} :
    ∀ {l : List α}, (∀ a ∈ l, f a = some (g a)) → l.filterMap f = l.map g := by
  intro l
  induction l with
  | nil =>
    intro _
    rfl
  | cons a l ih =>
    intro h
    rw [List.filterMap_cons, h a (List.mem_cons_self a l), List.map_cons,
      ih (fun x hx => h x (List.mem_cons_of_mem _ hx))]

/- ------------------------------------------------------------------ -/
/- Lemmas about the mutating operations.                               -/
/- ------------------------------------------------------------------ -/

theorem addLoop_aligned (clkTs clkIso : Nat → String) (mds : Option (List MetaMap)) :
    ∀ (pairs : List (String × Vec)) (i : Nat) (s : Store), s.aligned →
      (addLoop clkTs clkIso mds pairs i s).1.aligned := by
  intro pairs
  induction pairs with
  | nil =>
    intro i s h
    exact h
  | cons p rest ih =>
    intro i s h
    obtain ⟨t, e⟩ := p
    apply ih
    simp only [Store.aligned, List.length_append, List.length_cons, List.length_nil]
    have := h
    simp only [Store.aligned] at this
    omega

theorem addLoop_vectors_length (clkTs clkIso : Nat → String) (mds : Option (List MetaMap)) :
    ∀ (pairs : List (String × Vec)) (i : Nat) (s : Store),
      (addLoop clkTs clkIso mds pairs i s).1.vectors.length =
        s.vectors.length + pairs.length := by
  intro pairs
  induction pairs with
  | nil =>
    intro i s
    simp [addLoop]
  | cons p rest ih =>
    intro i s
    obtain ⟨t, e⟩ := p
    have := ih (i + 1) ⟨s.vectors ++ [e],
      s.metadata ++ [buildRecord clkTs clkIso mds s.vectors.length i t]⟩
    simp only [addLoop, this, List.length_append, List.length_cons, List.length_nil]
    omega

theorem addLoop_ids (clkTs clkIso : Nat → String) (mds : Option (List MetaMap)) :
    ∀ (pairs : List (String × Vec)) (i : Nat) (s : Store),
      (addLoop clkTs clkIso mds pairs i s).2 =
        (List.range pairs.length).map fun j => mkDocId (s.vectors.length + j) (clkTs (i + j)) := by
  intro pairs
  induction pairs with
  | nil =>
    intro i s
    simp [addLoop]
  | cons p rest ih =>
    intro i s
    obtain ⟨t, e⟩ := p
    have hrec := ih (i + 1) ⟨s.vectors ++ [e],
      s.metadata ++ [buildRecord clkTs clkIso mds s.vectors.length i t]⟩
    simp only [List.length_append, List.length_cons, List.length_nil, Nat.zero_add] at hrec
    simp only [addLoop, hrec, List.length_cons, List.range_succ_eq_map, List.map_cons,
      List.map_map, Nat.add_zero]
    refine congrArg₂ List.cons rfl ?_
    apply List.map_congr_left
    intro j _
    simp only [Function.comp_apply, Nat.succ_eq_add_one]
    have h1 : s.vectors.length + 1 + j = s.vectors.length + (j + 1) := by omega
    have h2 : i + 1 + j = i + (j + 1) := by omega
    rw [h1, h2]

theorem removeIdxs_length_eq :
    ∀ (idxs : List Nat) (v : List Vec) (m : List MetaMap), v.length = m.length →
      (removeIdxs idxs v m).1.length = (removeIdxs idxs v m).2.length := by
  intro idxs
  induction idxs with
  | nil =>
    intro v m h
    exact h
  | cons idx rest ih =>
    intro v m h
    apply ih
    by_cases hlt : idx < v.length
    · have hlt2 : idx < m.length := h ▸ hlt
      simp only [if_pos hlt, if_pos hlt2, List.length_eraseIdx, if_pos hlt, if_pos hlt2]
      omega
    · have hlt2 : ¬ idx < m.length := h ▸ hlt
      simp only [if_neg hlt, if_neg hlt2]
      exact h

theorem add_texts_aligned (s : Store) (texts : List String) (embeds : List Vec)
    (mds : Option (List MetaMap)) (clkTs clkIso : Nat → String)
    (fsV fsM : Except String Unit) (h : s.aligned) :
    (add_texts s texts embeds mds clkTs clkIso fsV fsM).store.aligned := by
  by_cases ht : texts = []
  · simp only [add_texts, if_pos ht]
    exact h
  · simp only [add_texts, if_neg ht]
    exact addLoop_aligned clkTs clkIso mds (texts.zip embeds) 0 s h

theorem delete_aligned (s : Store) (ids : Option (List String))
    (fsV fsM : Except String Unit) (h : s.aligned) :
    (delete s ids fsV fsM).store.aligned := by
  match ids with
  | none => exact h
  | some l =>
    by_cases hl : l = []
    · simp only [delete, if_pos hl]
      exact h
    · simp only [delete, if_neg hl]
      exact removeIdxs_length_eq _ s.vectors s.metadata h

theorem applyOp_aligned (s : Store) (op : Op) (h : s.aligned) : (applyOp s op).aligned := by
  cases op with
  | addT texts embeds mds c1 c2 f1 f2 => exact add_texts_aligned s texts embeds mds c1 c2 f1 f2 h
  | addD docs embeds c1 c2 f1 f2 =>
    exact add_texts_aligned s (docs.map Prod.fst) embeds (some (docs.map Prod.snd)) c1 c2 f1 f2 h
  | del ids f1 f2 => exact delete_aligned s ids f1 f2 h

theorem applyOps_aligned : ∀ (ops : List Op) (s : Store), s.aligned → (applyOps s ops).aligned := by
  intro ops
  induction ops with
  | nil =>
    intro s h
    exact h
  | cons op rest ih =>
    intro s h
    exact ih (applyOp s op) (applyOp_aligned s op h)

/- ------------------------------------------------------------------ -/
/- Lemmas about the search pipeline.                                   -/
/- ------------------------------------------------------------------ -/

theorem simPairs_length (s : Store) (qv : Vec) :
    (simPairs s qv).length = s.vectors.length := by
  simp [simPairs, List.enum_length]

theorem mem_simPairs_lt {s : Store} {qv : Vec} {p : Nat × ℝ} (h : p ∈ simPairs s qv) :
    p.1 < s.vectors.length := by
  simp only [simPairs, List.mem_map] at h
  obtain ⟨q, hq, hpq⟩ := h
  have := mem_enum_lt hq
  rw [← hpq]
  exact this

theorem simPairs_pairwise_fst (s : Store) (qv : Vec) :
    (simPairs s qv).Pairwise (fun a b => a.1 < b.1) := by
  rw [simPairs, List.pairwise_map]
  exact (pairwise_enum s.vectors).imp (fun h => h)

theorem searchRanking_perm (s : Store) (qv : Vec) :
    List.Perm (searchRanking s qv) (simPairs s qv) :=
  sortKeyDesc_perm Prod.snd (simPairs s qv)

theorem searchRanking_sorted (s : Store) (qv : Vec) :
    (searchRanking s qv).Pairwise (fun a b => b.2 ≤ a.2) :=
  sortKeyDesc_sorted Prod.snd (simPairs s qv)

theorem searchRanking_stable (s : Store) (qv : Vec) :
    (searchRanking s qv).Pairwise (fun a b => a.2 = b.2 → a.1 < b.1) := by
  have h := sortKeyDesc_stable Prod.snd (simPairs_pairwise_fst s qv)
  refine h.imp ?_
  intro a b hab heq
  rcases hab with hlt | hfst
  · rw [heq] at hlt
    exact absurd hlt (lt_irrefl _)
  · exact hfst

theorem searchRanking_length (s : Store) (qv : Vec) :
    (searchRanking s qv).length = s.vectors.length := by
  rw [(searchRanking_perm s qv).length_eq, simPairs_length]

theorem mem_searchRanking_lt {s : Store} {qv : Vec} {p : Nat × ℝ}
    (h : p ∈ searchRanking s qv) : p.1 < s.vectors.length :=
  mem_simPairs_lt ((searchRanking_perm s qv).mem_iff.mp h)

theorem searchRanking_nil (s : Store) (qv : Vec) (h : s.vectors = []) :
    searchRanking s qv = [] := by
  rw [searchRanking, simPairs, h]
  rfl

theorem ranking_getElem?_eq {s : Store} {qv : Vec} {k : Nat} (hA : s.aligned)
    {p : Nat × ℝ} (hp : p ∈ (searchRanking s qv).take k) :
    s.metadata.get? p.1 = some (metaAt s p.1) := by
  have hlt : p.1 < s.metadata.length := by
    have := mem_searchRanking_lt (List.mem_of_mem_take hp)
    have hA2 := hA
    simp only [Store.aligned] at hA2
    omega
  rw [List.get?_eq_getElem?, List.getElem?_eq_getElem hlt, metaAt,
    List.getD_eq_getElem?_getD, List.getElem?_eq_getElem hlt]
  rfl

theorem search_with_score_char (s : Store) (qv : Vec) (k : Nat) (hA : s.aligned) :
    similarity_search_with_score s qv k =
      ((searchRanking s qv).take k).map fun p => (mkDoc (metaAt s p.1), p.2) := by
  by_cases hv : s.vectors.isEmpty
  · have hnil : s.vectors = [] := List.isEmpty_iff.mp hv
    rw [similarity_search_with_score, if_pos hv, searchRanking_nil s qv hnil]
    simp
  · rw [similarity_search_with_score, if_neg hv]
    apply filterMap_eq_map_of
    intro p hp
    rw [ranking_getElem?_eq hA hp]
    rfl

theorem search_char (s : Store) (qv : Vec) (k : Nat) (hA : s.aligned) :
    similarity_search s qv k =
      ((searchRanking s qv).take k).map fun p => mkDoc (metaAt s p.1) := by
  by_cases hv : s.vectors.isEmpty
  · have hnil : s.vectors = [] := List.isEmpty_iff.mp hv
    rw [similarity_search, if_pos hv, searchRanking_nil s qv hnil]
    simp
  · rw [similarity_search, if_neg hv]
    apply filterMap_eq_map_of
    intro p hp
    rw [ranking_getElem?_eq hA hp]
    rfl

theorem add_texts_ret_ok (s : Store) (texts : List String) (embeds : List Vec)
    (mds : Option (List MetaMap)) (clkTs clkIso : Nat → String)
    (fsV fsM : Except String Unit) :
    ∃ ids, (add_texts s texts embeds mds clkTs clkIso fsV fsM).ret = Except.ok ids := by
  by_cases ht : texts = []
  · exact ⟨[], by simp [add_texts, ht]⟩
  · refine ⟨(addLoop clkTs clkIso mds (texts.zip embeds) 0 s).2, ?_⟩
    simp only [add_texts, if_neg ht]
    cases fsV <;> cases fsM <;> rfl

theorem delete_ret_ok (s : Store) (ids : Option (List String))
    (fsV fsM : Except String Unit) : (delete s ids fsV fsM).ret = Except.ok () := by
  match ids with
  | none => rfl
  | some l =>
    by_cases hl : l = []
    · simp [delete, hl]
    · simp only [delete, if_neg hl]
      cases fsV <;> cases fsM <;> rfl

/- ------------------------------------------------------------------ -/
/- The claims.                                                         -/
/- ------------------------------------------------------------------ -/

/-- C1: starting from any aligned state, every sequence of
`add_texts`/`add_documents`/`delete` operations leaves the vectors array and
the metadata array with equal, index-aligned lengths, and
`get_collection_stats` then reports `document_count == vector_count`. -/
theorem claim_C1_alignment_invariant (s : Store) (ops : List Op) (h : s.aligned) :
    (applyOps s ops).aligned ∧
    (get_collection_stats (applyOps s ops)).document_count =
      (get_collection_stats (applyOps s ops)).vector_count := by
  have ha := applyOps_aligned ops s h
  exact ⟨ha, ha.symm⟩

/-- Witness for C1 at a concrete aligned store and a concrete operation
sequence (an add followed by a delete). -/
theorem claim_C1_alignment_invariant_witness :
    sampleStore.aligned ∧
    ((applyOps sampleStore
        [Op.addT ["x"] [[]] none (fun _ => "2.0") (fun _ => "T2") (Except.ok ()) (Except.ok ()),
          Op.del (some ["doc_0_1.0"]) (Except.ok ()) (Except.ok ())]).aligned ∧
      (get_collection_stats (applyOps sampleStore
        [Op.addT ["x"] [[]] none (fun _ => "2.0") (fun _ => "T2") (Except.ok ()) (Except.ok ()),
          Op.del (some ["doc_0_1.0"]) (Except.ok ()) (Except.ok ())])).document_count =
        (get_collection_stats (applyOps sampleStore
          [Op.addT ["x"] [[]] none (fun _ => "2.0") (fun _ => "T2") (Except.ok ()) (Except.ok ()),
            Op.del (some ["doc_0_1.0"]) (Except.ok ()) (Except.ok ())])).vector_count) :=
  ⟨rfl, claim_C1_alignment_invariant sampleStore
    [Op.addT ["x"] [[]] none (fun _ => "2.0") (fun _ => "T2") (Except.ok ()) (Except.ok ()),
      Op.del (some ["doc_0_1.0"]) (Except.ok ()) (Except.ok ())] rfl⟩

/-- C2, counterexample to the claim as stated: even when both underlying file
writes raise (`Except.error "disk full"`), `add_texts` still returns its normal
id list and `delete` still returns its normal `None` — no error is surfaced to
the caller of the mutating operation. -/
theorem claim_C2_counterexample :
    (add_texts sampleStore ["x"] [[]] none (fun _ => "2.0") (fun _ => "T2")
        (Except.error "disk full") (Except.error "disk full")).ret =
      Except.ok ["doc_1_2.0"] ∧
    (delete sampleStore (some ["doc_0_1.0"]) (Except.error "disk full")
        (Except.error "disk full")).ret = Except.ok () :=
  ⟨rfl, rfl⟩

/-- C2, amended: a failure while persisting either artifact is caught inside
the save helper (`try/except: print`), and every mutating operation returns its
normal success value regardless of the persistence outcome — save failures are
never surfaced to the caller. -/
theorem claim_C2_amended_save_swallowed :
    (∀ w : Except String Unit, save_vectorsM w = Except.ok () ∧ save_metadataM w = Except.ok ()) ∧
    (∀ (s : Store) (texts : List String) (embeds : List Vec) (mds : Option (List MetaMap))
        (clkTs clkIso : Nat → String) (fsV fsM : Except String Unit),
      ∃ ids, (add_texts s texts embeds mds clkTs clkIso fsV fsM).ret = Except.ok ids) ∧
    (∀ (s : Store) (docs : List (String × MetaMap)) (embeds : List Vec)
        (clkTs clkIso : Nat → String) (fsV fsM : Except String Unit),
      ∃ ids, (add_documents s docs embeds clkTs clkIso fsV fsM).ret = Except.ok ids) ∧
    (∀ (s : Store) (ids : Option (List String)) (fsV fsM : Except String Unit),
      (delete s ids fsV fsM).ret = Except.ok ()) := by
  refine ⟨?_, ?_, ?_, ?_⟩
  · intro w
    cases w <;> exact ⟨rfl, rfl⟩
  · intro s texts embeds mds clkTs clkIso fsV fsM
    exact add_texts_ret_ok s texts embeds mds clkTs clkIso fsV fsM
  · intro s docs embeds clkTs clkIso fsV fsM
    exact add_texts_ret_ok s (docs.map Prod.fst) embeds (some (docs.map Prod.snd))
      clkTs clkIso fsV fsM
  · intro s ids fsV fsM
    exact delete_ret_ok s ids fsV fsM

/-- C6: the cosine-similarity function either hits the zero-norm guard and
returns exactly `0`, or both norms are nonzero, the divisor is nonzero, and the
result is the dot product divided by the product of the norms — so the division
is never a division by zero. -/
theorem claim_C6_cosine_guard (a b : Vec) (h : a.length = b.length) :
    ((norm2 a = 0 ∨ norm2 b = 0) ∧ cosine_similarity a b = 0) ∨
    (norm2 a ≠ 0 ∧ norm2 b ≠ 0 ∧ norm2 a * norm2 b ≠ 0 ∧
      cosine_similarity a b = dotProduct a b / (norm2 a * norm2 b)) := by
  by_cases h0 : norm2 a = 0 ∨ norm2 b = 0
  · exact Or.inl ⟨h0, by rw [cosine_similarity, if_pos h0]⟩
  · have h1 : norm2 a ≠ 0 := fun hx => h0 (Or.inl hx)
    have h2 : norm2 b ≠ 0 := fun hx => h0 (Or.inr hx)
    exact Or.inr ⟨h1, h2, mul_ne_zero h1 h2, by rw [cosine_similarity, if_neg h0]⟩

/-- Witness for C6 at the concrete equal-length vectors `[1]` and `[0]`
(the second has norm zero). -/
theorem claim_C6_cosine_guard_witness :
    ([(1 : ℝ)] : Vec).length = ([(0 : ℝ)] : Vec).length ∧
    (((norm2 [(1 : ℝ)] = 0 ∨ norm2 [(0 : ℝ)] = 0) ∧
        cosine_similarity [(1 : ℝ)] [(0 : ℝ)] = 0) ∨
      (norm2 [(1 : ℝ)] ≠ 0 ∧ norm2 [(0 : ℝ)] ≠ 0 ∧
        norm2 [(1 : ℝ)] * norm2 [(0 : ℝ)] ≠ 0 ∧
        cosine_similarity [(1 : ℝ)] [(0 : ℝ)] =
          dotProduct [(1 : ℝ)] [(0 : ℝ)] / (norm2 [(1 : ℝ)] * norm2 [(0 : ℝ)]))) :=
  ⟨rfl, claim_C6_cosine_guard [(1 : ℝ)] [(0 : ℝ)] rfl⟩

/-- C7 (code bug): with records `A` and `B` stored, `delete(["A", "A"])` in ONE
call removes BOTH records — the duplicated id resolves to index 0 twice, and
the second `del` hits the position into which `B` has shifted — whereas the
claim (and the spec's idempotence requirement) demands that only `A`'s record
be removed.  Deleting `A` twice across two separate calls is harmless. -/
theorem claim_C7_duplicate_delete_bug :
    (delete dupStore (some ["A", "A"]) (Except.ok ()) (Except.ok ())).store.metadata = [] ∧
    (delete dupStore (some ["A", "A"]) (Except.ok ()) (Except.ok ())).store.vectors = [] ∧
    (delete dupStore (some ["A"]) (Except.ok ()) (Except.ok ())).store.metadata =
      [[("id", "B"), ("text", "b")]] ∧
    (delete (delete dupStore (some ["A"]) (Except.ok ()) (Except.ok ())).store (some ["A"])
        (Except.ok ()) (Except.ok ())).store.metadata = [[("id", "B"), ("text", "b")]] :=
  ⟨rfl, rfl, rfl, rfl⟩

/-- C8: `add_texts` with an empty `texts` list returns `[]`, leaves the
in-memory store untouched, and performs no file write at all. -/
theorem claim_C8_empty_add_noop (s : Store) (embeds : List Vec)
    (mds : Option (List MetaMap)) (clkTs clkIso : Nat → String)
    (fsV fsM : Except String Unit) :
    (add_texts s [] embeds mds clkTs clkIso fsV fsM).ret = Except.ok [] ∧
    (add_texts s [] embeds mds clkTs clkIso fsV fsM).store = s ∧
    (add_texts s [] embeds mds clkTs clkIso fsV fsM).writes = [] :=
  ⟨rfl, rfl, rfl⟩

/-- C10: both search methods leave the store exactly as it was — the vectors
array, the metadata array and hence every stored metadata record are unchanged
— they perform no file write, and each returned document's metadata is built by
erasing keys from a copy of a stored record (which itself remains in the
unchanged store). -/
theorem claim_C10_search_frame (s : Store) (qv : Vec) (k : Nat) :
    (similarity_searchM s qv k).2.1 = s ∧
    (similarity_searchM s qv k).2.2 = [] ∧
    (similarity_search_with_scoreM s qv k).2.1 = s ∧
    (similarity_search_with_scoreM s qv k).2.2 = [] ∧
    (similarity_searchM s qv k).2.1.vectors = s.vectors ∧
    (similarity_searchM s qv k).2.1.metadata = s.metadata ∧
    ∀ d ∈ (similarity_searchM s qv k).1, ∃ m, m ∈ s.metadata ∧
      d.metadata = mmErase (mmErase (mmErase m "text") "id") "timestamp" := by
  refine ⟨rfl, rfl, rfl, rfl, rfl, rfl, ?_⟩
  intro d hd
  have hd2 : d ∈ similarity_search s qv k := hd
  by_cases hv : s.vectors.isEmpty
  · rw [similarity_search, if_pos hv] at hd2
    exact absurd hd2 (List.not_mem_nil d)
  · rw [similarity_search, if_neg hv] at hd2
    rw [List.mem_filterMap] at hd2
    obtain ⟨p, _, hsome⟩ := hd2
    rw [Option.map_eq_some'] at hsome
    obtain ⟨m, hm, hmk⟩ := hsome
    refine ⟨m, List.get?_mem hm, ?_⟩
    rw [← hmk]
    rfl

/-- C3: with an aligned store, both search methods return exactly
`min k n` results (`n` the number of stored records); the with-score results
are precisely the image of the top `k` of the descending-sorted ranking of all
`(index, cosine-similarity)` pairs, the plain search is its first projection,
scores are pairwise descending, every returned score dominates every omitted
one, and an empty collection yields `[]` (which also covers `k > n`: all `n`
records are returned, no padding, no error). -/
theorem claim_C3_top_k (s : Store) (qv : Vec) (k : Nat) (hA : s.aligned) :
    (similarity_search s qv k).length = min k s.vectors.length ∧
    (similarity_search_with_score s qv k).length = min k s.vectors.length ∧
    similarity_search s qv k = (similarity_search_with_score s qv k).map Prod.fst ∧
    similarity_search_with_score s qv k =
      ((searchRanking s qv).take k).map (fun p => (mkDoc (metaAt s p.1), p.2)) ∧
    List.Perm (searchRanking s qv) (simPairs s qv) ∧
    (searchRanking s qv).Pairwise (fun a b => b.2 ≤ a.2) ∧
    (∀ p ∈ (searchRanking s qv).take k, ∀ q ∈ (searchRanking s qv).drop k, q.2 ≤ p.2) ∧
    (s.vectors = [] →
      similarity_search s qv k = [] ∧ similarity_search_with_score s qv k = []) := by
  have hchar := search_with_score_char s qv k hA
  have hchar2 := search_char s qv k hA
  have hlen : ((searchRanking s qv).take k).length = min k s.vectors.length := by
    rw [List.length_take, searchRanking_length]
  refine ⟨?_, ?_, ?_, hchar, searchRanking_perm s qv, searchRanking_sorted s qv, ?_, ?_⟩
  · rw [hchar2, List.length_map, hlen]
  · rw [hchar, List.length_map, hlen]
  · rw [hchar, hchar2, List.map_map]
    rfl
  · exact pairwise_take_drop (searchRanking_sorted s qv) k
  · intro hnil
    have he : s.vectors.isEmpty = true := by rw [hnil]; rfl
    constructor
    · rw [similarity_search, if_pos he]
    · rw [similarity_search_with_score, if_pos he]

/-- Witness for C3 at the concrete aligned one-record store, query vector `[]`
and `k = 1`. -/
theorem claim_C3_top_k_witness :
    sampleStore.aligned ∧
    ((similarity_search sampleStore [] 1).length = min 1 sampleStore.vectors.length ∧
      (similarity_search_with_score sampleStore [] 1).length =
        min 1 sampleStore.vectors.length ∧
      similarity_search sampleStore [] 1 =
        (similarity_search_with_score sampleStore [] 1).map Prod.fst ∧
      similarity_search_with_score sampleStore [] 1 =
        ((searchRanking sampleStore []).take 1).map
          (fun p => (mkDoc (metaAt sampleStore p.1), p.2)) ∧
      List.Perm (searchRanking sampleStore []) (simPairs sampleStore []) ∧
      (searchRanking sampleStore []).Pairwise (fun a b => b.2 ≤ a.2) ∧
      (∀ p ∈ (searchRanking sampleStore []).take 1,
        ∀ q ∈ (searchRanking sampleStore []).drop 1, q.2 ≤ p.2) ∧
      (sampleStore.vectors = [] →
        similarity_search sampleStore [] 1 = [] ∧
        similarity_search_with_score sampleStore [] 1 = [])) :=
  ⟨rfl, claim_C3_top_k sampleStore [] 1 rfl⟩

/-- C4: the ranking both search methods present is tie-stable — whenever two
entries of the sorted similarity list have equal scores, the earlier one has
the smaller storage index (original insertion order) — and both methods return
exactly the image of the top `k` of that ranking. -/
theorem claim_C4_stable_tie_break (s : Store) (qv : Vec) (k : Nat) (hA : s.aligned) :
    (searchRanking s qv).Pairwise (fun a b => a.2 = b.2 → a.1 < b.1) ∧
    similarity_search_with_score s qv k =
      ((searchRanking s qv).take k).map (fun p => (mkDoc (metaAt s p.1), p.2)) ∧
    similarity_search s qv k =
      ((searchRanking s qv).take k).map (fun p => mkDoc (metaAt s p.1)) :=
  ⟨searchRanking_stable s qv, search_with_score_char s qv k hA, search_char s qv k hA⟩

/-- Witness for C4 at the concrete aligned one-record store, query vector `[]`
and `k = 1`. -/
theorem claim_C4_stable_tie_break_witness :
    sampleStore.aligned ∧
    ((searchRanking sampleStore []).Pairwise (fun a b => a.2 = b.2 → a.1 < b.1) ∧
      similarity_search_with_score sampleStore [] 1 =
        ((searchRanking sampleStore []).take 1).map
          (fun p => (mkDoc (metaAt sampleStore p.1), p.2)) ∧
      similarity_search sampleStore [] 1 =
        ((searchRanking sampleStore []).take 1).map
          (fun p => mkDoc (metaAt sampleStore p.1))) :=
  ⟨rfl, claim_C4_stable_tie_break sampleStore [] 1 rfl⟩

/-- C5, counterexample to the claim as stated: add `"a"`, `"b"` (ids
`doc_0_100.0`, `doc_1_100.0`), delete `doc_0_100.0`, then add `"c"` with the
clock still reading `100.0` — the vector count has dropped back to 1, so the
new id is again `doc_1_100.0`, which is exactly the id still present in the
collection.  The freshly generated id therefore collides with an existing id. -/
theorem claim_C5_counterexample :
    (add_texts cexStoreB ["c"] [[]] none (fun _ => "100.0") (fun _ => "T")
        (Except.ok ()) (Except.ok ())).ret = Except.ok ["doc_1_100.0"] ∧
    mmLookup (metaAt cexStoreB 0) "id" = some "doc_1_100.0" ∧
    cexStoreB.metadata.length = 1 :=
  ⟨rfl, rfl, rfl⟩

/-- C5, amended: for a non-empty input (with the embedding collaborator
returning one vector per text), `add_texts` returns exactly one id per input
text in input order, namely `doc_{n+j}_{ts_j}` for the `j`-th text (`n` the
prior vector count); these ids are pairwise distinct (the counters differ).
Distinctness from ids already present holds only under a clock-freshness
proviso — e.g. whenever no present id has the call's timestamp string as a
suffix; without it a collision is possible (see the counterexample). -/
theorem claim_C5_amended_fresh_ids (s : Store) (texts : List String) (embeds : List Vec)
    (mds : Option (List MetaMap)) (clkTs clkIso : Nat → String)
    (fsV fsM : Except String Unit)
    (hne : texts ≠ []) (hlen : embeds.length = texts.length) :
    (add_texts s texts embeds mds clkTs clkIso fsV fsM).ret =
      Except.ok ((List.range texts.length).map fun j =>
        mkDocId (s.vectors.length + j) (clkTs j)) ∧
    ((List.range texts.length).map fun j =>
      mkDocId (s.vectors.length + j) (clkTs j)).length = texts.length ∧
    ((List.range texts.length).map fun j =>
      mkDocId (s.vectors.length + j) (clkTs j)).Nodup ∧
    ((∀ m ∈ s.metadata, ∀ v, mmLookup m "id" = some v →
        ∀ j, ¬ (clkTs j).data <:+ v.data) →
      ∀ did ∈ (List.range texts.length).map fun j =>
          mkDocId (s.vectors.length + j) (clkTs j),
        ∀ m ∈ s.metadata, mmLookup m "id" ≠ some did) := by
  have hzip : (texts.zip embeds).length = texts.length := by
    rw [List.length_zip, hlen, min_self]
  have hids : (addLoop clkTs clkIso mds (texts.zip embeds) 0 s).2 =
      (List.range texts.length).map fun j => mkDocId (s.vectors.length + j) (clkTs j) := by
    rw [addLoop_ids, hzip]
    apply List.map_congr_left
    intro j _
    rw [Nat.zero_add]
  refine ⟨?_, ?_, ?_, ?_⟩
  · simp only [add_texts, if_neg hne]
    cases fsV <;> cases fsM <;> exact congrArg Except.ok hids
  · rw [List.length_map, List.length_range]
  · refine List.Nodup.map_on ?_ (List.nodup_range texts.length)
    intro x _ y _ hxy
    have := (mkDocId_inj hxy).1
    omega
  · intro hfresh did hdid m hm hlook
    rw [List.mem_map] at hdid
    obtain ⟨j, _, hdj⟩ := hdid
    have hsuf : (clkTs j).data <:+ did.data := by
      rw [← hdj]
      exact ts_suffix_mkDocId _ _
    exact hfresh m hm did hlook j hsuf

/-- Witness for C5 (amended) at a concrete call adding one text to the sample
store. -/
theorem claim_C5_amended_fresh_ids_witness :
    (["x"] : List String) ≠ [] ∧
    ([[]] : List Vec).length = (["x"] : List String).length ∧
    ((add_texts sampleStore ["x"] [[]] none (fun _ : Nat => "2.0") (fun _ : Nat => "T2")
        (Except.ok ()) (Except.ok ())).ret =
      Except.ok ((List.range (["x"] : List String).length).map fun j =>
        mkDocId (sampleStore.vectors.length + j) ((fun _ : Nat => "2.0") j)) ∧
    ((List.range (["x"] : List String).length).map fun j =>
      mkDocId (sampleStore.vectors.length + j) ((fun _ : Nat => "2.0") j)).length =
        (["x"] : List String).length ∧
    ((List.range (["x"] : List String).length).map fun j =>
      mkDocId (sampleStore.vectors.length + j) ((fun _ : Nat => "2.0") j)).Nodup ∧
    ((∀ m ∈ sampleStore.metadata, ∀ v, mmLookup m "id" = some v →
        ∀ j, ¬ ((fun _ : Nat => "2.0") j : String).data <:+ v.data) →
      ∀ did ∈ (List.range (["x"] : List String).length).map fun j =>
          mkDocId (sampleStore.vectors.length + j) ((fun _ : Nat => "2.0") j),
        ∀ m ∈ sampleStore.metadata, mmLookup m "id" ≠ some did)) :=
  ⟨by decide, rfl, claim_C5_amended_fresh_ids sampleStore ["x"] [[]] none
    (fun _ : Nat => "2.0") (fun _ : Nat => "T2") (Except.ok ()) (Except.ok ()) (by decide) rfl⟩

/-- C9: every document returned by the search methods is the stored record with
the `"text"` key extracted as the content (default `""`), the internal `"id"`
and `"timestamp"` keys removed, and every other (caller-supplied) key looked up
unchanged; and inside `add_texts`, a record built with caller metadata answers
lookups of the caller's keys with the caller's values and all other keys with
the internal base bindings. -/
theorem claim_C9_metadata_projection (s : Store) (qv : Vec) (k : Nat)
    (clkTs clkIso : Nat → String) (ms : List MetaMap) (n i : Nat) (t key : String)
    (hi : i < ms.length) (hnd : (mmKeys (ms.getD i [])).Nodup) :
    (∀ d ∈ similarity_search s qv k,
      ∃ m, m ∈ s.metadata ∧
        d.page_content = (mmLookup m "text").getD "" ∧
        d.metadata = mmErase (mmErase (mmErase m "text") "id") "timestamp" ∧
        mmLookup d.metadata "id" = none ∧
        mmLookup d.metadata "timestamp" = none ∧
        mmLookup d.metadata "text" = none ∧
        (∀ key2, key2 ≠ "id" → key2 ≠ "text" → key2 ≠ "timestamp" →
          mmLookup d.metadata key2 = mmLookup m key2)) ∧
    (∀ dp ∈ similarity_search_with_score s qv k,
      ∃ m, m ∈ s.metadata ∧
        dp.1.metadata = mmErase (mmErase (mmErase m "text") "id") "timestamp") ∧
    mmLookup (buildRecord clkTs clkIso (some ms) n i t) key =
      (match mmLookup (ms.getD i []) key with
        | some v => some v
        | none => mmLookup
            [("id", mkDocId n (clkTs i)), ("text", t), ("timestamp", clkIso i)] key) := by
  refine ⟨?_, ?_, ?_⟩
  · intro d hd
    by_cases hv : s.vectors.isEmpty
    · rw [similarity_search, if_pos hv] at hd
      exact absurd hd (List.not_mem_nil d)
    · rw [similarity_search, if_neg hv] at hd
      rw [List.mem_filterMap] at hd
      obtain ⟨p, _, hsome⟩ := hd
      rw [Option.map_eq_some'] at hsome
      obtain ⟨m, hm, hmk⟩ := hsome
      refine ⟨m, List.get?_mem hm, ?_, ?_, ?_, ?_, ?_, ?_⟩
      · rw [← hmk]
        exact rfl
      · rw [← hmk]
        exact rfl
      · rw [← hmk]
        show mmLookup (mmErase (mmErase (mmErase m "text") "id") "timestamp") "id" = none
        rw [mmLookup_mmErase, if_neg (by decide : ¬ ("id" : String) = "timestamp"),
          mmLookup_mmErase, if_pos rfl]
      · rw [← hmk]
        show mmLookup (mmErase (mmErase (mmErase m "text") "id") "timestamp") "timestamp" = none
        rw [mmLookup_mmErase, if_pos rfl]
      · rw [← hmk]
        show mmLookup (mmErase (mmErase (mmErase m "text") "id") "timestamp") "text" = none
        rw [mmLookup_mmErase, if_neg (by decide : ¬ ("text" : String) = "timestamp"),
          mmLookup_mmErase, if_neg (by decide : ¬ ("text" : String) = "id"),
          mmLookup_mmErase, if_pos rfl]
      · intro key2 h1 h2 h3
        rw [← hmk]
        show mmLookup (mmErase (mmErase (mmErase m "text") "id") "timestamp") key2 =
          mmLookup m key2
        rw [mmLookup_mmErase, if_neg h3, mmLookup_mmErase, if_neg h1,
          mmLookup_mmErase, if_neg h2]
  · intro dp hdp
    by_cases hv : s.vectors.isEmpty
    · rw [similarity_search_with_score, if_pos hv] at hdp
      exact absurd hdp (List.not_mem_nil dp)
    · rw [similarity_search_with_score, if_neg hv] at hdp
      rw [List.mem_filterMap] at hdp
      obtain ⟨p, _, hsome⟩ := hdp
      rw [Option.map_eq_some'] at hsome
      obtain ⟨m, hm, hmk⟩ := hsome
      refine ⟨m, List.get?_mem hm, ?_⟩
      rw [← hmk]
      exact rfl
  · rw [buildRecord]
    simp only [if_pos hi]
    exact mmLookup_mmUpdate _ (ms.getD i []) key hnd

/-- Witness for C9 at the concrete sample store, query `[]`, `k = 1`, and a
concrete one-entry caller metadata list. -/
theorem claim_C9_metadata_projection_witness :
    (0 : Nat) < ([[("a", "b")]] : List MetaMap).length ∧
    (mmKeys (([[("a", "b")]] : List MetaMap).getD 0 [])).Nodup ∧
    ((∀ d ∈ similarity_search sampleStore [] 1,
      ∃ m, m ∈ sampleStore.metadata ∧
        d.page_content = (mmLookup m "text").getD "" ∧
        d.metadata = mmErase (mmErase (mmErase m "text") "id") "timestamp" ∧
        mmLookup d.metadata "id" = none ∧
        mmLookup d.metadata "timestamp" = none ∧
        mmLookup d.metadata "text" = none ∧
        (∀ key2, key2 ≠ "id" → key2 ≠ "text" → key2 ≠ "timestamp" →
          mmLookup d.metadata key2 = mmLookup m key2)) ∧
    (∀ dp ∈ similarity_search_with_score sampleStore [] 1,
      ∃ m, m ∈ sampleStore.metadata ∧
        dp.1.metadata = mmErase (mmErase (mmErase m "text") "id") "timestamp") ∧
    mmLookup (buildRecord (fun _ : Nat => "c") (fun _ : Nat => "c") (some [[("a", "b")]]) 0 0 "t") "a" =
      (match mmLookup (([[("a", "b")]] : List MetaMap).getD 0 []) "a" with
        | some v => some v
        | none => mmLookup
            [("id", mkDocId 0 ((fun _ : Nat => "c") 0)), ("text", "t"),
              ("timestamp", (fun _ : Nat => "c") 0)] "a")) :=
  ⟨by decide, by decide, claim_C9_metadata_projection sampleStore [] 1
    (fun _ : Nat => "c") (fun _ : Nat => "c") [[("a", "b")]] 0 0 "t" "a" (by decide) (by decide)⟩

end SimpleVectorStore
